import Mathlib

/-!
Verification of the Zephyr power-state control layer (`include/power.h`).

The header defines the power-state registry (`enum power_states`, gated by
build configuration flags), the suspend-result category constants
(`SYS_PM_ACTIVE_STATE` / `SYS_PM_LOW_POWER_STATE` / `SYS_PM_DEEP_SLEEP` /
`SYS_PM_NOT_HANDLED`), the idle-exit notify flag and its inline disable
function, and declares the control-lock table operations and the
suspend/resume protocol hooks.  Declarations whose bodies are not in the
repository (they live in SoC/platform code) are modelled from the spec,
and are marked as such in their doc comments.
-/

/-- Build configuration flags gating which enumerators of `enum power_states`
exist (`CONFIG_SYS_POWER_LOW_POWER_STATE`, `CONFIG_SYS_POWER_STATE_CPU_LPS_*`,
`CONFIG_SYS_POWER_DEEP_SLEEP`, `CONFIG_SYS_POWER_STATE_DEEP_SLEEP_*`). -/
structure PMConfig where
  sysPowerLowPowerState : Bool
  stateCpuLpsSupported : Bool
  stateCpuLps1Supported : Bool
  stateCpuLps2Supported : Bool
  sysPowerDeepSleep : Bool
  stateDeepSleepSupported : Bool
  stateDeepSleep1Supported : Bool
  stateDeepSleep2Supported : Bool
deriving DecidableEq

/-- Names of the possible enumerators of `enum power_states` (without the
`SYS_POWER_STATE_MAX` sentinel). -/
inductive PowerStateName where
  | SYS_POWER_STATE_CPU_LPS
  | SYS_POWER_STATE_CPU_LPS_1
  | SYS_POWER_STATE_CPU_LPS_2
  | SYS_POWER_STATE_DEEP_SLEEP
  | SYS_POWER_STATE_DEEP_SLEEP_1
  | SYS_POWER_STATE_DEEP_SLEEP_2
deriving DecidableEq, Fintype, Repr

/-- The enumerator list of `enum power_states` under configuration `cfg`,
in declaration order, mirroring the `#ifdef` structure of the header.
A C enum assigns each enumerator its 0-based position in this list. -/
def power_states (cfg : PMConfig) : List PowerStateName :=
  (if cfg.sysPowerLowPowerState then
     (if cfg.stateCpuLpsSupported then [.SYS_POWER_STATE_CPU_LPS] else []) ++
     (if cfg.stateCpuLps1Supported then [.SYS_POWER_STATE_CPU_LPS_1] else []) ++
     (if cfg.stateCpuLps2Supported then [.SYS_POWER_STATE_CPU_LPS_2] else [])
   else []) ++
  (if cfg.sysPowerDeepSleep then
     (if cfg.stateDeepSleepSupported then [.SYS_POWER_STATE_DEEP_SLEEP] else []) ++
     (if cfg.stateDeepSleep1Supported then [.SYS_POWER_STATE_DEEP_SLEEP_1] else []) ++
     (if cfg.stateDeepSleep2Supported then [.SYS_POWER_STATE_DEEP_SLEEP_2] else [])
   else [])

/-- Value of `SYS_POWER_STATE_MAX`: the sentinel closing the enum, i.e. the number of
configured enumerators (the sentinel's own value in C). -/
def SYS_POWER_STATE_MAX (cfg : PMConfig) : Nat :=
  (power_states cfg).length

/-- The numeric value the C enum gives a configured enumerator: its 0-based
position in the declaration list. -/
def stateValue (cfg : PMConfig) (s : PowerStateName) : Nat :=
  (power_states cfg).indexOf s

/-- Constant from `#define SYS_PM_ACTIVE_STATE 0`. -/
def SYS_PM_ACTIVE_STATE : Nat := 0

/-- Constant from `#define SYS_PM_LOW_POWER_STATE 1`. -/
def SYS_PM_LOW_POWER_STATE : Nat := 1

/-- Constant from `#define SYS_PM_DEEP_SLEEP 2`. -/
def SYS_PM_DEEP_SLEEP : Nat := 2

/-- Constant from `#define SYS_PM_NOT_HANDLED SYS_PM_ACTIVE_STATE`. -/
def SYS_PM_NOT_HANDLED : Nat := SYS_PM_ACTIVE_STATE

/-- The configuration with every power-state feature flag set: all six
enumerators exist. -/
def fullCfg : PMConfig :=
  ⟨true, true, true, true, true, true, true, true⟩

/-- Kernel-visible mutable state touched by the power-management interface:
the idle-exit notify byte (`unsigned char sys_pm_idle_exit_notify`), the
control-lock table (one enabled flag per power-state ordinal, sized `M`),
the CPU interrupt-enable flag, and whether a prior deep-sleep suspend was
recorded by the platform (consulted by `sys_resume_from_deep_sleep`). -/
structure KernelState (M : Nat) where
  sys_pm_idle_exit_notify : Nat
  lockTable : Fin M → Bool
  irqEnabled : Bool
  deepSleepRecorded : Bool

/-- Embedding of `sys_pm_idle_exit_notification_disable` (body in the header):
`sys_pm_idle_exit_notify = 0;` and nothing else. -/
def sys_pm_idle_exit_notification_disable {M : Nat} (s : KernelState M) :
    KernelState M :=
  { s with sys_pm_idle_exit_notify := 0 }

/-- Modelled from the spec: `sys_pm_ctrl_disable_state` is only declared in
the header; per spec §4.2 it marks `state` unselectable (flag `false`) and
touches nothing else. -/
def sys_pm_ctrl_disable_state {M : Nat} (state : Fin M) (s : KernelState M) :
    KernelState M :=
  { s with lockTable := fun x => if x = state then false else s.lockTable x }

/-- Modelled from the spec: `sys_pm_ctrl_enable_state` is only declared in
the header; per spec §4.2 it marks `state` selectable (flag `true`) and
touches nothing else. -/
def sys_pm_ctrl_enable_state {M : Nat} (state : Fin M) (s : KernelState M) :
    KernelState M :=
  { s with lockTable := fun x => if x = state then true else s.lockTable x }

/-- Modelled from the spec: `sys_pm_ctrl_is_state_enabled` is only declared
in the header; per spec §4.2 it is a pure query of the control-lock table. -/
def sys_pm_ctrl_is_state_enabled {M : Nat} (state : Fin M)
    (s : KernelState M) : Bool :=
  s.lockTable state

/-- Modelled from the spec: the boot-time initial kernel state.  The header
documents "By default all power states are enabled" and the notify flag
defaults to "notify" (nonzero); an ordinary cold boot has no deep-sleep
suspend recorded and runs with interrupts enabled in task context. -/
def bootState (M : Nat) : KernelState M :=
  { sys_pm_idle_exit_notify := 1
    lockTable := fun _ => true
    irqEnabled := true
    deepSleepRecorded := false }

/-- Modelled from the spec: `sys_resume_from_deep_sleep` is only declared in
the header; per spec §4.4 it is unconditionally invoked early in boot, must
detect the non-deep-sleep case and return immediately as a no-op, and
otherwise switches context back to the suspend point (abstracted here as
consuming the recorded deep-sleep mark). -/
def sys_resume_from_deep_sleep {M : Nat} (s : KernelState M) : KernelState M :=
  if s.deepSleepRecorded then { s with deepSleepRecorded := false } else s

/-- Result of a `sys_suspend` call, in the widened per-ordinal form the spec
allows (spec §3: SuspendResult is "extensible to PowerState ordinals when
finer reporting is needed"): either `SYS_PM_NOT_HANDLED` or the entered
power-state ordinal. -/
inductive SuspendResult (M : Nat) where
  | notHandled : SuspendResult M
  | entered : Fin M → SuspendResult M
deriving DecidableEq

/-- Modelled from the spec: the policy decision inside `sys_suspend`
(spec §4.4): consult the control-lock table and pick the deepest (highest
ordinal) enabled state whose wake-up latency fits within the idle budget
`ticks`; `none` when no state qualifies. -/
def selectState {M : Nat} (table : Fin M → Bool) (latency : Fin M → Int)
    (ticks : Int) : Option (Fin M) :=
  (List.finRange M).reverse.find? fun s => table s && decide (latency s ≤ ticks)

/-- Modelled from the spec: `sys_suspend` is only declared in the header; per
spec §4.4 it is entered with interrupts disabled, consults the control-lock
table, and either enters the selected state — re-enabling interrupts itself
before returning — or returns `SYS_PM_NOT_HANDLED` leaving the interrupt
state as found. -/
def sys_suspend {M : Nat} (latency : Fin M → Int) (ticks : Int)
    (s : KernelState M) : SuspendResult M × KernelState M :=
  match selectState s.lockTable latency ticks with
  | none => (.notHandled, s)
  | some st => (.entered st, { s with irqEnabled := true })

/-- One suspend/resume cycle as the idle scheduler drives it: whether
`sys_pm_idle_exit_notification_disable` was called during this cycle's
`sys_suspend` invocation, and whether that invocation returned a
non-`SYS_PM_NOT_HANDLED` result. -/
structure PMCycle where
  suppressed : Bool
  handled : Bool
deriving DecidableEq

/-- Observable events of the suspend/resume protocol, tagged with their
cycle number. -/
inductive PMEvent where
  | suspendBegin : Nat → PMEvent
  | suspendEnd : Nat → PMEvent
  | resume : Nat → PMEvent
deriving DecidableEq

/-- The cycle number an event belongs to. -/
def PMEvent.cycle : PMEvent → Nat
  | .suspendBegin n => n
  | .suspendEnd n => n
  | .resume n => n

/-- Modelled from the spec: the event trace of one suspend/resume cycle.
`sys_suspend` runs to completion; the wake interrupt then invokes
`sys_resume` exactly when the suspend call was handled and the idle-exit
notification was not disabled during it (header: `sys_resume` notifies "if a
corresponding sys_suspend() notification was handled and did not return
SYS_PM_NOT_HANDLED", and `sys_pm_idle_exit_notification_disable` "can be
called in sys_suspend to disable this notification"). -/
def cycleTrace (n : Nat) (c : PMCycle) : List PMEvent :=
  [.suspendBegin n, .suspendEnd n] ++
    (if c.handled && !c.suppressed then [.resume n] else [])

/-- Modelled from the spec: the event trace of consecutive suspend/resume
cycles starting at cycle number `k` — cycles never overlap (spec §5: single
core, single idle point), so the trace is the concatenation of the
per-cycle traces in order. -/
def runCyclesFrom (k : Nat) : List PMCycle → List PMEvent
  | [] => []
  | c :: cs => cycleTrace k c ++ runCyclesFrom (k + 1) cs

/-- The event trace of a run of consecutive cycles numbered from 0. -/
def runCycles (cs : List PMCycle) : List PMEvent :=
  runCyclesFrom 0 cs

/-- Extensionality for kernel states: equal field by field. -/
theorem KernelState.ext {M : Nat} {s t : KernelState M}
    (h1 : s.sys_pm_idle_exit_notify = t.sys_pm_idle_exit_notify)
    (h2 : s.lockTable = t.lockTable) (h3 : s.irqEnabled = t.irqEnabled)
    (h4 : s.deepSleepRecorded = t.deepSleepRecorded) : s = t := by
  cases s; cases t; simp_all

/-- C9: the `#define` chain makes `SYS_PM_NOT_HANDLED` numerically identical
to `SYS_PM_ACTIVE_STATE`, both being 0, so a `sys_suspend` return value
meaning "no low-power state entered" is indistinguishable by value from
"active". -/
theorem not_handled_value_aliases_active :
    SYS_PM_NOT_HANDLED = SYS_PM_ACTIVE_STATE ∧ SYS_PM_ACTIVE_STATE = 0 :=
  ⟨rfl, rfl⟩

/-- C10: `sys_pm_idle_exit_notification_disable` unconditionally writes 0 to
`sys_pm_idle_exit_notify`, modifies no other kernel state, and is
idempotent. -/
theorem idle_exit_notify_disable_zero_frame_idem {M : Nat}
    (s : KernelState M) :
    (sys_pm_idle_exit_notification_disable s).sys_pm_idle_exit_notify = 0 ∧
    (sys_pm_idle_exit_notification_disable s).lockTable = s.lockTable ∧
    (sys_pm_idle_exit_notification_disable s).irqEnabled = s.irqEnabled ∧
    (sys_pm_idle_exit_notification_disable s).deepSleepRecorded =
      s.deepSleepRecorded ∧
    sys_pm_idle_exit_notification_disable
        (sys_pm_idle_exit_notification_disable s) =
      sys_pm_idle_exit_notification_disable s :=
  ⟨rfl, rfl, rfl, rfl, rfl⟩

/-- C6: in the boot-time initial state of the control-lock table every power
state is enabled. -/
theorem boot_all_states_enabled (M : Nat) (s : Fin M) :
    sys_pm_ctrl_is_state_enabled s (bootState M) = true :=
  rfl

/-- C5: after `sys_pm_ctrl_disable_state s`, the query
`sys_pm_ctrl_is_state_enabled s` returns false, and for every state `t`
distinct from `s` the query result is unchanged. -/
theorem disable_state_effect_and_frame {M : Nat} (s t : Fin M)
    (ks : KernelState M) (h : t ≠ s) :
    sys_pm_ctrl_is_state_enabled s (sys_pm_ctrl_disable_state s ks) = false ∧
    sys_pm_ctrl_is_state_enabled t (sys_pm_ctrl_disable_state s ks) =
      sys_pm_ctrl_is_state_enabled t ks := by
  refine ⟨?_, ?_⟩
  · simp [sys_pm_ctrl_is_state_enabled, sys_pm_ctrl_disable_state]
  · simp [sys_pm_ctrl_is_state_enabled, sys_pm_ctrl_disable_state, h]

/-- Witness for C5 at a concrete table: disabling state 3 of 6 turns its
query false and leaves state 1 enabled. -/
theorem disable_state_effect_and_frame_witness :
    ((1 : Fin 6) ≠ (3 : Fin 6)) ∧
    (sys_pm_ctrl_is_state_enabled 3
        (sys_pm_ctrl_disable_state 3 (bootState 6)) = false ∧
      sys_pm_ctrl_is_state_enabled 1
          (sys_pm_ctrl_disable_state 3 (bootState 6)) =
        sys_pm_ctrl_is_state_enabled 1 (bootState 6)) :=
  ⟨by decide, disable_state_effect_and_frame 3 1 (bootState 6) (by decide)⟩

/-- C7: `sys_pm_ctrl_disable_state` and `sys_pm_ctrl_enable_state` are
idempotent: a second call leaves the kernel state exactly as after the
first. -/
theorem enable_disable_idempotent {M : Nat} (s : Fin M) (ks : KernelState M) :
    sys_pm_ctrl_disable_state s (sys_pm_ctrl_disable_state s ks) =
      sys_pm_ctrl_disable_state s ks ∧
    sys_pm_ctrl_enable_state s (sys_pm_ctrl_enable_state s ks) =
      sys_pm_ctrl_enable_state s ks := by
  constructor <;>
    · refine KernelState.ext rfl ?_ rfl rfl
      funext x
      by_cases hx : x = s <;>
        simp [sys_pm_ctrl_disable_state, sys_pm_ctrl_enable_state, hx]

/-- C8: `sys_resume_from_deep_sleep` on an ordinary cold boot (no deep-sleep
suspend recorded) returns the state unchanged. -/
theorem resume_from_deep_sleep_cold_boot_noop {M : Nat} (s : KernelState M)
    (h : s.deepSleepRecorded = false) :
    sys_resume_from_deep_sleep s = s := by
  simp [sys_resume_from_deep_sleep, h]

/-- Witness for C8: at the boot state with six configured states, the call is
a no-op. -/
theorem resume_from_deep_sleep_cold_boot_noop_witness :
    (bootState 6).deepSleepRecorded = false ∧
    sys_resume_from_deep_sleep (bootState 6) = bootState 6 :=
  ⟨rfl, resume_from_deep_sleep_cold_boot_noop (bootState 6) rfl⟩

/-- C4 counterexample: the claim that no candidate power state shares the
value 0 used for `SYS_PM_ACTIVE_STATE`/`SYS_PM_NOT_HANDLED` is false: under
the full configuration `SYS_POWER_STATE_CPU_LPS` is a configured candidate
and its enum value is exactly `SYS_PM_ACTIVE_STATE` (both 0), since the
first enumerator of a C enum gets value 0. -/
theorem active_value_shared_with_first_state :
    PowerStateName.SYS_POWER_STATE_CPU_LPS ∈ power_states fullCfg ∧
    stateValue fullCfg .SYS_POWER_STATE_CPU_LPS = SYS_PM_ACTIVE_STATE := by
  decide

/-- C4 (amended): for every build configuration the configured enumerators of
`enum power_states` take exactly the contiguous, 0-based values strictly
below `SYS_POWER_STATE_MAX`; the `SYS_PM_ACTIVE_STATE`/`SYS_PM_NOT_HANDLED`
value 0 is not value-disjoint from the candidate set — whenever at least one
state is configured, the first configured state also has value 0. -/
theorem power_state_values_contiguous (cfg : PMConfig) :
    (power_states cfg).map (stateValue cfg) =
      List.range (SYS_POWER_STATE_MAX cfg) ∧
    (∀ s ∈ power_states cfg,
      stateValue cfg s < SYS_POWER_STATE_MAX cfg) ∧
    (∀ s, (power_states cfg).head? = some s →
      stateValue cfg s = SYS_PM_ACTIVE_STATE) := by
  obtain ⟨a, b, c, d, e, f, g, h⟩ := cfg
  cases a <;> cases b <;> cases c <;> cases d <;>
    cases e <;> cases f <;> cases g <;> cases h <;> decide

/-- Witness for C4 (amended) at the full configuration: the head of the
enumerator list is `SYS_POWER_STATE_CPU_LPS` and its value is 0. -/
theorem power_state_values_contiguous_witness :
    (power_states fullCfg).head? = some .SYS_POWER_STATE_CPU_LPS ∧
    stateValue fullCfg .SYS_POWER_STATE_CPU_LPS = SYS_PM_ACTIVE_STATE :=
  ⟨by decide,
    (power_state_values_contiguous fullCfg).2.2 _ (by decide)⟩

/-- C1: `sys_suspend` never returns as entered a state whose control-lock
flag was false at the policy decision; in particular after
`sys_pm_ctrl_disable_state s0` it never returns `s0` as the entered state,
whatever the idle budget. -/
theorem suspend_never_selects_disabled {M : Nat} (latency : Fin M → Int)
    (ticks : Int) :
    (∀ (ks : KernelState M) (st : Fin M),
      (sys_suspend latency ticks ks).1 = .entered st →
      sys_pm_ctrl_is_state_enabled st ks = true) ∧
    (∀ (s0 : Fin M) (ks : KernelState M),
      (sys_suspend latency ticks (sys_pm_ctrl_disable_state s0 ks)).1 ≠
        .entered s0) := by
  have key : ∀ (ks : KernelState M) (st : Fin M),
      (sys_suspend latency ticks ks).1 = .entered st →
      sys_pm_ctrl_is_state_enabled st ks = true := by
    intro ks st h
    unfold sys_suspend at h
    cases hsel : selectState ks.lockTable latency ticks with
    | none => rw [hsel] at h; simp at h
    | some st' =>
      rw [hsel] at h
      simp only [SuspendResult.entered.injEq] at h
      subst h
      have hp := List.find?_some hsel
      have := (Bool.and_eq_true _ _).mp hp
      exact this.1
  refine ⟨key, ?_⟩
  intro s0 ks h
  have := key _ _ h
  simp [sys_pm_ctrl_is_state_enabled, sys_pm_ctrl_disable_state] at this

/-- Witness for C1: with all six states enabled, zero latencies and budget
100000 ticks, `sys_suspend` enters the deepest state 5, which is indeed
enabled. -/
theorem suspend_never_selects_disabled_witness :
    (sys_suspend (fun _ : Fin 6 => (0 : Int)) 100000 (bootState 6)).1 =
      .entered 5 ∧
    sys_pm_ctrl_is_state_enabled 5 (bootState 6) = true :=
  ⟨by decide,
    (suspend_never_selects_disabled (fun _ : Fin 6 => (0 : Int)) 100000).1
      (bootState 6) 5 (by decide)⟩

/-- C2: `sys_suspend` entered with interrupts disabled re-enables them
exactly when it returns a non-`SYS_PM_NOT_HANDLED` result; on
`SYS_PM_NOT_HANDLED` the interrupt-enable state is unchanged from entry
(still disabled). -/
theorem suspend_interrupt_discipline {M : Nat} (latency : Fin M → Int)
    (ticks : Int) (ks : KernelState M) (h : ks.irqEnabled = false) :
    ((sys_suspend latency ticks ks).1 ≠ .notHandled →
      (sys_suspend latency ticks ks).2.irqEnabled = true) ∧
    ((sys_suspend latency ticks ks).1 = .notHandled →
      (sys_suspend latency ticks ks).2.irqEnabled = ks.irqEnabled ∧
      (sys_suspend latency ticks ks).2.irqEnabled = false) := by
  unfold sys_suspend
  cases hsel : selectState ks.lockTable latency ticks with
  | none => exact ⟨fun hne => absurd rfl hne, fun _ => ⟨rfl, h⟩⟩
  | some st => exact ⟨fun _ => rfl, fun heq => by simp at heq⟩

/-- Witness for C2: with every state's latency above the budget, the call is
not handled and interrupts stay disabled; the entry state has them
disabled. -/
theorem suspend_interrupt_discipline_witness :
    ({ bootState 6 with irqEnabled := false } : KernelState 6).irqEnabled =
      false ∧
    ((sys_suspend (fun _ : Fin 6 => (10 : Int)) 5
        { bootState 6 with irqEnabled := false }).1 = .notHandled →
      (sys_suspend (fun _ : Fin 6 => (10 : Int)) 5
          { bootState 6 with irqEnabled := false }).2.irqEnabled =
        ({ bootState 6 with irqEnabled := false } : KernelState 6).irqEnabled ∧
      (sys_suspend (fun _ : Fin 6 => (10 : Int)) 5
          { bootState 6 with irqEnabled := false }).2.irqEnabled = false) :=
  ⟨rfl,
    (suspend_interrupt_discipline (fun _ : Fin 6 => (10 : Int)) 5
      { bootState 6 with irqEnabled := false } rfl).2⟩

/-- Every event emitted by one cycle carries that cycle's number. -/
theorem cycle_of_mem_cycleTrace {n : Nat} {c : PMCycle} {e : PMEvent}
    (h : e ∈ cycleTrace n c) : e.cycle = n := by
  unfold cycleTrace at h
  by_cases hc : (c.handled && !c.suppressed) = true
  · simp [hc] at h
    rcases h with rfl | rfl | rfl <;> rfl
  · simp [hc] at h
    rcases h with rfl | rfl <;> rfl

/-- A run starting at cycle `k` contains no resume event of an earlier
cycle. -/
theorem resume_not_mem_runCyclesFrom_lt {m k : Nat} (cs : List PMCycle)
    (h : m < k) : PMEvent.resume m ∉ runCyclesFrom k cs := by
  induction cs generalizing k with
  | nil => simp [runCyclesFrom]
  | cons c cs ih =>
    intro hmem
    simp only [runCyclesFrom] at hmem
    rcases List.mem_append.mp hmem with hmem | hmem
    · have hcy := cycle_of_mem_cycleTrace hmem
      simp [PMEvent.cycle] at hcy
      omega
    · exact ih (Nat.lt_succ_of_lt h) hmem

/-- A run of `cs.length` cycles starting at cycle `k` contains no resume
event of a cycle at or beyond `k + cs.length`. -/
theorem resume_not_mem_runCyclesFrom_ge {m k : Nat} (cs : List PMCycle)
    (h : k + cs.length ≤ m) : PMEvent.resume m ∉ runCyclesFrom k cs := by
  induction cs generalizing k with
  | nil => simp [runCyclesFrom]
  | cons c cs ih =>
    intro hmem
    simp only [runCyclesFrom] at hmem
    rcases List.mem_append.mp hmem with hmem | hmem
    · have hcy := cycle_of_mem_cycleTrace hmem
      simp [PMEvent.cycle] at hcy
      simp [List.length_cons] at h
      omega
    · refine ih ?_ hmem
      simp at h ⊢
      omega

/-- The number of resume events cycle `k`'s trace emits for cycle `n`: one
exactly when `n = k` and the cycle was handled without suppression. -/
theorem count_resume_cycleTrace (k n : Nat) (c : PMCycle) :
    (cycleTrace k c).count (.resume n) =
      if n = k ∧ c.handled = true ∧ c.suppressed = false then 1 else 0 := by
  rcases c with ⟨sup, hand⟩
  by_cases hn : n = k <;> cases sup <;> cases hand <;>
    simp [cycleTrace, List.count_cons, List.count_append, hn]

/-- The whole run emits the resume event of cycle `k + n` once exactly when
cycle `n` of the list was handled without suppression. -/
theorem count_resume_runCyclesFrom (k n : Nat) (cs : List PMCycle)
    (c : PMCycle) (hn : cs[n]? = some c) :
    (runCyclesFrom k cs).count (.resume (k + n)) =
      if c.handled = true ∧ c.suppressed = false then 1 else 0 := by
  induction cs generalizing k n with
  | nil => simp at hn
  | cons c' cs ih =>
    cases n with
    | zero =>
      simp only [List.getElem?_cons_zero] at hn
      obtain rfl : c' = c := Option.some.inj hn
      simp only [runCyclesFrom, List.count_append]
      rw [count_resume_cycleTrace,
        List.count_eq_zero.mpr
          (resume_not_mem_runCyclesFrom_lt cs (by omega))]
      simp
    | succ n =>
      simp only [List.getElem?_cons_succ] at hn
      have h1 : (cycleTrace k c').count (.resume (k + (n + 1))) = 0 := by
        rw [count_resume_cycleTrace, if_neg]
        rintro ⟨h, -⟩
        omega
      simp only [runCyclesFrom, List.count_append, h1, Nat.zero_add]
      have e : k + (n + 1) = k + 1 + n := by omega
      rw [e]
      exact ih (k + 1) n hn

/-- A run splits at any cycle of the list: the cycles before it, its own
trace, then the cycles after it. -/
theorem runCyclesFrom_decomp (k n : Nat) (cs : List PMCycle) (c : PMCycle)
    (hn : cs[n]? = some c) :
    runCyclesFrom k cs =
      runCyclesFrom k (cs.take n) ++
        (cycleTrace (k + n) c ++
          runCyclesFrom (k + n + 1) (cs.drop (n + 1))) := by
  induction cs generalizing k n with
  | nil => simp at hn
  | cons c' cs ih =>
    cases n with
    | zero =>
      simp only [List.getElem?_cons_zero] at hn
      obtain rfl : c' = c := Option.some.inj hn
      simp [runCyclesFrom]
    | succ n =>
      simp only [List.getElem?_cons_succ] at hn
      have e : k + (n + 1) = k + 1 + n := by omega
      rw [e]
      simp only [List.take_succ_cons, List.drop_succ_cons, runCyclesFrom]
      rw [ih (k + 1) n hn]
      simp [List.append_assoc]

/-- The first event of a nonempty run starting at cycle `k` includes that
cycle's suspend-begin event. -/
theorem suspendBegin_mem_runCyclesFrom (k : Nat) (c : PMCycle)
    (cs : List PMCycle) :
    PMEvent.suspendBegin k ∈ runCyclesFrom k (c :: cs) := by
  simp [runCyclesFrom, cycleTrace]

/-- C3: per suspend/resume cycle `n` of a run — if the notification was
disabled during cycle `n`'s suspend, its resume event never appears; if it
was not disabled and the suspend was handled, the resume event of cycle `n`
appears exactly once, strictly after cycle `n`'s suspend returns and
strictly before cycle `n+1`'s suspend begins; and over two consecutive
handled, non-suppressed cycles the resume event is observed exactly twice,
once per cycle. -/
theorem resume_per_cycle_protocol (cs : List PMCycle) (n : Nat) (c : PMCycle)
    (hn : cs[n]? = some c) :
    (c.suppressed = true → PMEvent.resume n ∉ runCycles cs) ∧
    (c.suppressed = false → c.handled = true →
      (runCycles cs).count (.resume n) = 1 ∧
      ∃ pre post, runCycles cs = pre ++ PMEvent.resume n :: post ∧
        PMEvent.suspendEnd n ∈ pre ∧
        PMEvent.resume n ∉ pre ∧ PMEvent.resume n ∉ post ∧
        (∀ c', cs[n + 1]? = some c' →
          PMEvent.suspendBegin (n + 1) ∈ post)) ∧
    (∀ c', cs[n + 1]? = some c' →
      c.suppressed = false → c.handled = true →
      c'.suppressed = false → c'.handled = true →
      (runCycles cs).count (.resume n) = 1 ∧
      (runCycles cs).count (.resume (n + 1)) = 1) := by
  have hcount : ∀ (m : Nat) (c'' : PMCycle), cs[m]? = some c'' →
      (runCycles cs).count (.resume m) =
        if c''.handled = true ∧ c''.suppressed = false then 1 else 0 := by
    intro m c'' hm
    have := count_resume_runCyclesFrom 0 m cs c'' hm
    simpa [runCycles] using this
  refine ⟨?_, ?_, ?_⟩
  · intro hsup
    rw [← List.count_eq_zero (a := PMEvent.resume n)]
    rw [hcount n c hn, if_neg]
    rintro ⟨-, h2⟩
    rw [hsup] at h2
    exact absurd h2 (by decide)
  · intro hsup hhand
    refine ⟨by rw [hcount n c hn, if_pos ⟨hhand, hsup⟩], ?_⟩
    have hdec := runCyclesFrom_decomp 0 n cs c hn
    have hfire : cycleTrace n c =
        [PMEvent.suspendBegin n, PMEvent.suspendEnd n, PMEvent.resume n] := by
      simp [cycleTrace, hhand, hsup]
    rw [Nat.zero_add] at hdec
    refine ⟨runCyclesFrom 0 (cs.take n) ++
        [PMEvent.suspendBegin n, PMEvent.suspendEnd n],
      runCyclesFrom (n + 1) (cs.drop (n + 1)), ?_, ?_, ?_, ?_, ?_⟩
    · rw [runCycles, hdec, hfire]
      simp
    · simp
    · intro hmem
      rcases List.mem_append.mp hmem with hmem | hmem
      · exact resume_not_mem_runCyclesFrom_ge (cs.take n)
          (by simp) hmem
      · simp at hmem
    · exact resume_not_mem_runCyclesFrom_lt _ (Nat.lt_succ_self n)
    · intro c' hn'
      obtain ⟨hlt, hget⟩ := List.getElem?_eq_some_iff.mp hn'
      rw [List.drop_eq_getElem_cons hlt, hget]
      exact suspendBegin_mem_runCyclesFrom (n + 1) c' (cs.drop (n + 2))
  · intro c' hn' hsup hhand hsup' hhand'
    exact ⟨by rw [hcount n c hn, if_pos ⟨hhand, hsup⟩],
      by rw [hcount (n + 1) c' hn', if_pos ⟨hhand', hsup'⟩]⟩

/-- Witness for C3: a two-cycle run, both cycles handled and not suppressed,
shows one resume per cycle — two in total. -/
theorem resume_per_cycle_protocol_witness :
    ([⟨false, true⟩, ⟨false, true⟩] : List PMCycle)[0]? =
      some ⟨false, true⟩ ∧
    ((runCycles [⟨false, true⟩, ⟨false, true⟩]).count (.resume 0) = 1 ∧
      (runCycles [⟨false, true⟩, ⟨false, true⟩]).count (.resume 1) = 1) :=
  ⟨rfl,
    (resume_per_cycle_protocol [⟨false, true⟩, ⟨false, true⟩] 0
        ⟨false, true⟩ rfl).2.2 ⟨false, true⟩ rfl rfl rfl rfl rfl⟩
